import Mathlib

/-!
Verification of the GenAI-Text front-end workflow code.

JavaScript strings are modelled as `List Char`; machine numbers that the
code only ever uses as integers (file sizes, lengths, attempt counters)
are modelled as `Nat`/`Int`.  Network interactions are modelled by passing
the environment's responses explicitly: a handler takes the outcome the
HTTP service would produce and returns the resulting component state
together with the network calls it issued.
-/

namespace GenAIText

/-- JavaScript strings, modelled as lists of characters. -/
abbrev JStr := List Char

/-- Whitespace test used by `trim` and the `\s` regex class. -/
def jsWhitespace (c : Char) : Bool := c.isWhitespace

/-- Negation of `jsWhitespace`, the character class of token characters. -/
def nonWs (c : Char) : Bool := !jsWhitespace c

/-- JavaScript `String.prototype.trim`: drop leading and trailing whitespace. -/
def jsTrim (s : JStr) : JStr :=
  (((s.dropWhile jsWhitespace).reverse.dropWhile jsWhitespace)).reverse

/-- JavaScript `String.prototype.toLowerCase`, per character. -/
def jsToLower (s : JStr) : JStr := s.map Char.toLower

/-- JavaScript `s.split(sep)` for a single-character separator `sep`:
splits at every occurrence of `sep`, keeping empty pieces
(`"" .split('.') = [""]`, `"a..b".split('.') = ["a","","b"]`). -/
def jsSplitChar (sep : Char) : JStr → List JStr
  | [] => [[]]
  | c :: cs =>
    if c = sep then [] :: jsSplitChar sep cs
    else
      match jsSplitChar sep cs with
      | [] => [[c]]
      | t :: ts => (c :: t) :: ts

/-- Worker for JavaScript `s.split(/\s+/)`: each maximal whitespace run is
one separator; a leading (resp. trailing) whitespace run contributes a
leading (resp. trailing) empty piece, and `"".split(/\s+/) = [""]`.
The `fuel` argument only makes the recursion structural; every step
consumes at least one character, so `fuel = s.length` never runs out. -/
def jsSplitWsAux : Nat → JStr → JStr → List JStr
  | _, [], acc => [acc.reverse]
  | 0, _ :: _, acc => [acc.reverse]
  | fuel + 1, c :: cs, acc =>
    if jsWhitespace c then
      acc.reverse :: jsSplitWsAux fuel (cs.dropWhile jsWhitespace) []
    else jsSplitWsAux fuel cs (c :: acc)

/-- JavaScript `s.split(/\s+/)`. -/
def jsSplitWs (s : JStr) : List JStr := jsSplitWsAux s.length s []

/-- `countUniqueWords` from `src/frontend/src/utils/textProcessing.js`:
`if (!text) return 0;` then trim, split on `/\s+/`, lowercase each word
and count the distinct ones via a `Set`.  The only falsy string is the
empty string, and `Set` size is the number of distinct elements, modelled
with `List.dedup`. -/
def countUniqueWords (text : JStr) : Nat :=
  if text = [] then 0
  else (((jsSplitWs (jsTrim text)).map jsToLower).dedup).length

/-- The specification's notion of tokenization: the maximal runs of
non-whitespace characters of the input, in order, with no empty tokens.
`fuel` only makes the recursion structural; each step consumes at least
one character, so `fuel = s.length` suffices. -/
def specTokensAux : Nat → JStr → List JStr
  | _, [] => []
  | 0, _ :: _ => []
  | fuel + 1, c :: cs =>
    if jsWhitespace c then specTokensAux fuel cs
    else (c :: cs.takeWhile nonWs) :: specTokensAux fuel (cs.dropWhile nonWs)

/-- Modelled from the spec's words: the whitespace-separated tokens of a
string (maximal non-whitespace runs, no empties). -/
def specTokens (s : JStr) : List JStr := specTokensAux s.length s

/-- Modelled from the spec's words: the number of distinct
whitespace-separated tokens after lowercasing. -/
def specUniqueWords (s : JStr) : Nat :=
  (((specTokens s).map jsToLower).dedup).length


theorem length_dropWhile_le' (p : Char → Bool) :
    ∀ l : List Char, (l.dropWhile p).length ≤ l.length := by
  intro l
  induction l with
  | nil => simp [List.dropWhile]
  | cons c cs ih =>
    simp only [List.dropWhile]
    cases hp : p c with
    | true => simpa using Nat.le_succ_of_le ih
    | false => simp

theorem specTokensAux_congr :
    ∀ (f g : Nat) (s : JStr), s.length ≤ f → s.length ≤ g →
      specTokensAux f s = specTokensAux g s := by
  intro f
  induction f with
  | zero =>
    intro g s hf _
    have hs : s = [] := by
      cases s with
      | nil => rfl
      | cons c cs => simp at hf
    subst hs
    cases g <;> rfl
  | succ f ih =>
    intro g s hf hg
    cases s with
    | nil => cases g <;> rfl
    | cons c cs =>
      cases g with
      | zero => simp at hg
      | succ g' =>
        simp only [specTokensAux]
        have hcs : cs.length ≤ f := by simpa using Nat.le_of_succ_le_succ hf
        have hcs' : cs.length ≤ g' := by simpa using Nat.le_of_succ_le_succ hg
        cases hc : jsWhitespace c with
        | true => simpa [hc] using ih g' cs hcs hcs'
        | false =>
          have hd : (cs.dropWhile nonWs).length ≤ f :=
            le_trans (length_dropWhile_le' nonWs cs) hcs
          have hd' : (cs.dropWhile nonWs).length ≤ g' :=
            le_trans (length_dropWhile_le' nonWs cs) hcs'
          simpa [hc] using ih g' (cs.dropWhile nonWs) hd hd'

theorem specTokens_nil : specTokens [] = [] := rfl

theorem specTokens_cons_ws (c : Char) (cs : JStr) (h : jsWhitespace c = true) :
    specTokens (c :: cs) = specTokens cs := by
  simp only [specTokens, List.length_cons, specTokensAux, h, if_pos]

theorem specTokens_cons_tok (c : Char) (cs : JStr) (h : jsWhitespace c = false) :
    specTokens (c :: cs) =
      (c :: cs.takeWhile nonWs) :: specTokens (cs.dropWhile nonWs) := by
  simp only [specTokens, List.length_cons, specTokensAux, h]
  rw [specTokensAux_congr cs.length (cs.dropWhile nonWs).length (cs.dropWhile nonWs)
    (length_dropWhile_le' nonWs cs) le_rfl]
  simp

theorem specTokens_dropWhile_ws :
    ∀ s : JStr, specTokens (s.dropWhile jsWhitespace) = specTokens s := by
  intro s
  induction s with
  | nil => rfl
  | cons c cs ih =>
    cases hc : jsWhitespace c with
    | true =>
      rw [List.dropWhile_cons_of_pos (by simpa using hc), specTokens_cons_ws c cs hc]
      exact ih
    | false =>
      rw [List.dropWhile_cons_of_neg (by simp [hc])]


theorem specTokens_all_ws :
    ∀ w : JStr, (∀ c ∈ w, jsWhitespace c = true) → specTokens w = [] := by
  intro w
  induction w with
  | nil => intro _; rfl
  | cons c cs ih =>
    intro h
    rw [specTokens_cons_ws c cs (h c (by simp))]
    exact ih fun d hd => h d (by simp [hd])

theorem takeWhile_nonWs_append (w : JStr) (hw : ∀ c ∈ w, jsWhitespace c = true) :
    ∀ cs : JStr, (cs ++ w).takeWhile nonWs = cs.takeWhile nonWs := by
  intro cs
  induction cs with
  | nil =>
    cases w with
    | nil => rfl
    | cons d ds =>
      simp only [List.nil_append, List.takeWhile_nil]
      exact List.takeWhile_cons_of_neg (by simp [nonWs, hw d (by simp)])
  | cons c cs ih =>
    cases hc : nonWs c with
    | true =>
      rw [List.cons_append, List.takeWhile_cons_of_pos hc,
        List.takeWhile_cons_of_pos hc, ih]
    | false =>
      rw [List.cons_append, List.takeWhile_cons_of_neg (by simp [hc]),
        List.takeWhile_cons_of_neg (by simp [hc])]

theorem dropWhile_nonWs_append (w : JStr) (hw : ∀ c ∈ w, jsWhitespace c = true) :
    ∀ cs : JStr, (cs ++ w).dropWhile nonWs = cs.dropWhile nonWs ++ w := by
  intro cs
  induction cs with
  | nil =>
    cases w with
    | nil => rfl
    | cons d ds =>
      simp only [List.nil_append, List.dropWhile_nil]
      exact List.dropWhile_cons_of_neg (by simp [nonWs, hw d (by simp)])
  | cons c cs ih =>
    cases hc : nonWs c with
    | true =>
      rw [List.cons_append, List.dropWhile_cons_of_pos hc,
        List.dropWhile_cons_of_pos hc, ih]
    | false =>
      rw [List.cons_append, List.dropWhile_cons_of_neg (by simp [hc]),
        List.dropWhile_cons_of_neg (by simp [hc]), List.cons_append]

theorem specTokens_append_ws :
    ∀ (fuel : Nat) (t w : JStr), t.length ≤ fuel →
      (∀ c ∈ w, jsWhitespace c = true) → specTokens (t ++ w) = specTokens t := by
  intro fuel
  induction fuel with
  | zero =>
    intro t w ht hw
    have : t = [] := by cases t with | nil => rfl | cons c cs => simp at ht
    subst this
    simpa using specTokens_all_ws w hw
  | succ fuel ih =>
    intro t w ht hw
    cases t with
    | nil => simpa using specTokens_all_ws w hw
    | cons c cs =>
      have hcs : cs.length ≤ fuel := by simpa using Nat.le_of_succ_le_succ ht
      cases hc : jsWhitespace c with
      | true =>
        rw [List.cons_append, specTokens_cons_ws c (cs ++ w) hc,
          specTokens_cons_ws c cs hc]
        exact ih cs w hcs hw
      | false =>
        rw [List.cons_append, specTokens_cons_tok c (cs ++ w) hc,
          specTokens_cons_tok c cs hc, takeWhile_nonWs_append w hw cs,
          dropWhile_nonWs_append w hw cs]
        rw [ih (cs.dropWhile nonWs) w
          (le_trans (length_dropWhile_le' nonWs cs) hcs) hw]

theorem specTokens_trim (s : JStr) : specTokens (jsTrim s) = specTokens s := by
  have key : ∀ t : JStr,
      specTokens ((t.reverse.dropWhile jsWhitespace)).reverse = specTokens t := by
    intro t
    have hsplit : t.reverse.takeWhile jsWhitespace ++ t.reverse.dropWhile jsWhitespace
        = t.reverse := List.takeWhile_append_dropWhile jsWhitespace t.reverse
    have ht : t = (t.reverse.dropWhile jsWhitespace).reverse
        ++ (t.reverse.takeWhile jsWhitespace).reverse := by
      conv_lhs => rw [← List.reverse_reverse t, ← hsplit]
      rw [List.reverse_append]
    have hw : ∀ c ∈ (t.reverse.takeWhile jsWhitespace).reverse,
        jsWhitespace c = true := by
      intro c hc
      exact List.mem_takeWhile_imp (List.mem_reverse.mp hc)
    calc specTokens ((t.reverse.dropWhile jsWhitespace)).reverse
        = specTokens ((t.reverse.dropWhile jsWhitespace).reverse
            ++ (t.reverse.takeWhile jsWhitespace).reverse) :=
          (specTokens_append_ws _ _ _ le_rfl hw).symm
      _ = specTokens t := by rw [← ht]
  calc specTokens (jsTrim s)
      = specTokens (s.dropWhile jsWhitespace) := key (s.dropWhile jsWhitespace)
    _ = specTokens s := specTokens_dropWhile_ws s


/-- A string has no trailing whitespace. -/
def noTrailWs (s : JStr) : Prop :=
  ∀ c, s.getLast? = some c → jsWhitespace c = false

theorem noTrailWs_nil : noTrailWs [] := by
  intro c h
  simp at h

theorem noTrailWs_tail (c : Char) (cs : JStr) (h : noTrailWs (c :: cs)) :
    noTrailWs cs := by
  cases cs with
  | nil => exact noTrailWs_nil
  | cons d ds =>
    intro e he
    exact h e (by rw [List.getLast?_cons_cons]; exact he)

theorem getLast?_mem' : ∀ (l : JStr) (c : Char), l.getLast? = some c → c ∈ l := by
  intro l
  induction l with
  | nil => intro c h; simp at h
  | cons a as ih =>
    intro c h
    cases as with
    | nil => simp_all
    | cons b bs =>
      rw [List.getLast?_cons_cons] at h
      exact List.mem_cons_of_mem a (ih c h)

theorem noTrailWs_dropWhile (p : Char → Bool) :
    ∀ s : JStr, noTrailWs s → noTrailWs (s.dropWhile p) := by
  intro s
  induction s with
  | nil => intro _; exact noTrailWs_nil
  | cons c cs ih =>
    intro h
    cases hp : p c with
    | true =>
      rw [List.dropWhile_cons_of_pos hp]
      exact ih (noTrailWs_tail c cs h)
    | false =>
      rw [List.dropWhile_cons_of_neg (by simp [hp])]
      exact h

theorem dropWhile_ws_ne_nil (c : Char) (cs : JStr)
    (h : noTrailWs (c :: cs)) (hc : jsWhitespace c = true) :
    cs.dropWhile jsWhitespace ≠ [] := by
  intro hnil
  have hall : ∀ x ∈ cs, jsWhitespace x = true := by
    intro x hx
    simpa using List.dropWhile_eq_nil_iff.mp hnil x hx
  cases cs with
  | nil =>
    have := h c (by simp)
    rw [hc] at this
    exact Bool.noConfusion this
  | cons d ds =>
    obtain ⟨e, he⟩ : ∃ e, (d :: ds).getLast? = some e := by
      cases hg : (d :: ds).getLast? with
      | none => simp at hg
      | some e => exact ⟨e, rfl⟩
    have hws : jsWhitespace e = true := hall e (getLast?_mem' (d :: ds) e he)
    have : jsWhitespace e = false :=
      h e (by rw [List.getLast?_cons_cons]; exact he)
    rw [hws] at this
    exact Bool.noConfusion this

theorem dropWhile_head_false (p : Char → Bool) :
    ∀ (l : JStr) (c : Char) (t : JStr), l.dropWhile p = c :: t → p c = false := by
  intro l
  induction l with
  | nil => intro c t h; simp at h
  | cons a as ih =>
    intro c t h
    cases hp : p a with
    | true =>
      rw [List.dropWhile_cons_of_pos hp] at h
      exact ih c t h
    | false =>
      rw [List.dropWhile_cons_of_neg (by simp [hp])] at h
      cases h
      exact hp

theorem jsTrim_noTrailWs (s : JStr) : noTrailWs (jsTrim s) := by
  intro c h
  rw [jsTrim, List.getLast?_reverse] at h
  obtain ⟨t, ht⟩ : ∃ t, ((s.dropWhile jsWhitespace).reverse.dropWhile jsWhitespace)
      = c :: t := by
    cases hd : (s.dropWhile jsWhitespace).reverse.dropWhile jsWhitespace with
    | nil => rw [hd] at h; simp at h
    | cons d ds =>
      rw [hd] at h
      simp at h
      exact ⟨ds, by rw [h]⟩
  exact dropWhile_head_false jsWhitespace _ c t ht

theorem dropWhile_getLast? (p : Char → Bool) :
    ∀ l : JStr, l.dropWhile p ≠ [] → (l.dropWhile p).getLast? = l.getLast? := by
  intro l
  induction l with
  | nil => intro h; simp [List.dropWhile] at h
  | cons a as ih =>
    intro h
    cases hp : p a with
    | true =>
      rw [List.dropWhile_cons_of_pos hp] at h ⊢
      have has : as ≠ [] := by
        intro hnil
        rw [hnil] at h
        simp [List.dropWhile] at h
      obtain ⟨b, bs, hbs⟩ := List.exists_cons_of_ne_nil has
      rw [ih h, hbs, List.getLast?_cons_cons]
    | false =>
      rw [List.dropWhile_cons_of_neg (by simp [hp])]

theorem jsTrim_head_nonWs (s : JStr) (c : Char) (r : JStr)
    (h : jsTrim s = c :: r) : jsWhitespace c = false := by
  have hne : (s.dropWhile jsWhitespace).reverse.dropWhile jsWhitespace ≠ [] := by
    intro hnil
    rw [jsTrim, hnil] at h
    simp at h
  have h1 : ((s.dropWhile jsWhitespace).reverse.dropWhile jsWhitespace).getLast?
      = (s.dropWhile jsWhitespace).reverse.getLast? :=
    dropWhile_getLast? jsWhitespace _ hne
  have h2 : (jsTrim s).head? = some c := by rw [h]; rfl
  rw [jsTrim, List.head?_reverse, h1, List.getLast?_reverse] at h2
  obtain ⟨t, ht⟩ : ∃ t, s.dropWhile jsWhitespace = c :: t := by
    cases hd : s.dropWhile jsWhitespace with
    | nil => rw [hd] at h2; simp at h2
    | cons d ds =>
      rw [hd] at h2
      simp at h2
      exact ⟨ds, by rw [h2]⟩
  exact dropWhile_head_false jsWhitespace s c t ht


theorem jsSplitWsAux_spec :
    ∀ (fuel : Nat) (s acc : JStr), s.length ≤ fuel → noTrailWs s →
      jsSplitWsAux fuel s acc =
        (acc.reverse ++ s.takeWhile nonWs) :: specTokens (s.dropWhile nonWs) := by
  intro fuel
  induction fuel with
  | zero =>
    intro s acc hf _
    have hs : s = [] := by
      cases s with
      | nil => rfl
      | cons c cs => simp at hf
    subst hs
    simp [jsSplitWsAux, specTokens_nil]
  | succ fuel ih =>
    intro s acc hf hs
    cases s with
    | nil => simp [jsSplitWsAux, specTokens_nil]
    | cons c cs =>
      have hcs : cs.length ≤ fuel := by simpa using Nat.le_of_succ_le_succ hf
      cases hc : jsWhitespace c with
      | false =>
        have hcnw : nonWs c = true := by simp [nonWs, hc]
        rw [show jsSplitWsAux (fuel + 1) (c :: cs) acc
            = jsSplitWsAux fuel cs (c :: acc) by simp [jsSplitWsAux, hc]]
        rw [ih cs (c :: acc) hcs (noTrailWs_tail c cs hs)]
        rw [List.takeWhile_cons_of_pos hcnw, List.dropWhile_cons_of_pos hcnw]
        simp
      | true =>
        have hcnw : nonWs c = false := by simp [nonWs, hc]
        rw [show jsSplitWsAux (fuel + 1) (c :: cs) acc
            = acc.reverse :: jsSplitWsAux fuel (cs.dropWhile jsWhitespace) [] by
          simp [jsSplitWsAux, hc]]
        have hu : cs.dropWhile jsWhitespace ≠ [] := dropWhile_ws_ne_nil c cs hs hc
        obtain ⟨d, dt, hdt⟩ := List.exists_cons_of_ne_nil hu
        have hd : jsWhitespace d = false :=
          dropWhile_head_false jsWhitespace cs d dt hdt
        have hdnw : nonWs d = true := by simp [nonWs, hd]
        have hlen : (cs.dropWhile jsWhitespace).length ≤ fuel :=
          le_trans (length_dropWhile_le' jsWhitespace cs) hcs
        have hnt : noTrailWs (cs.dropWhile jsWhitespace) :=
          noTrailWs_dropWhile jsWhitespace cs (noTrailWs_tail c cs hs)
        rw [ih (cs.dropWhile jsWhitespace) [] hlen hnt]
        rw [List.takeWhile_cons_of_neg (by simp [hcnw]),
          List.dropWhile_cons_of_neg (by simp [hcnw])]
        rw [specTokens_cons_ws c cs hc, ← specTokens_dropWhile_ws cs, hdt,
          specTokens_cons_tok d dt hd]
        rw [List.takeWhile_cons_of_pos hdnw, List.dropWhile_cons_of_pos hdnw]
        simp

/-- The trimmed-and-split pipeline of `countUniqueWords` coincides with the
specification tokenizer whenever the trimmed input is non-empty. -/
theorem jsSplitWs_trim_eq_specTokens (text : JStr) (h : jsTrim text ≠ []) :
    jsSplitWs (jsTrim text) = specTokens text := by
  obtain ⟨c, r, hcr⟩ := List.exists_cons_of_ne_nil h
  have hc : jsWhitespace c = false := jsTrim_head_nonWs text c r hcr
  have hcnw : nonWs c = true := by simp [nonWs, hc]
  have hnt : noTrailWs (jsTrim text) := jsTrim_noTrailWs text
  rw [jsSplitWs, jsSplitWsAux_spec (jsTrim text).length (jsTrim text) [] le_rfl hnt]
  rw [hcr, List.takeWhile_cons_of_pos hcnw, List.dropWhile_cons_of_pos hcnw]
  rw [List.reverse_nil, List.nil_append]
  rw [← specTokens_cons_tok c r hc, ← hcr, specTokens_trim]


/-- Claim C10 (counterexample): on the whitespace-only input `" "`,
`countUniqueWords` returns 1, while the number of distinct
whitespace-separated tokens is 0 — `" ".trim()` is `""`, and
`"".split(/\s+/)` yields `[""]`, one spurious empty "word". -/
theorem countUniqueWords_wsOnly_cex :
    countUniqueWords " ".toList = 1 ∧ specUniqueWords " ".toList = 0 := by
  decide

/-- Claim C10 (amended): `countUniqueWords` returns the number of distinct
whitespace-separated tokens after lowercasing for every input containing a
non-whitespace character, and returns 0 for the empty (falsy) input; for a
non-empty input consisting only of whitespace it returns 1. -/
theorem countUniqueWords_amended (text : JStr) :
    countUniqueWords text =
      if text = [] then 0
      else if jsTrim text = [] then 1
      else specUniqueWords text := by
  by_cases h0 : text = []
  · simp [countUniqueWords, h0]
  · rw [if_neg h0]
    by_cases h1 : jsTrim text = []
    · rw [if_pos h1, countUniqueWords, if_neg h0, h1]
      rfl
    · rw [if_neg h1, countUniqueWords, if_neg h0,
        jsSplitWs_trim_eq_specTokens text h1, specUniqueWords]


/-! ### The file-summarization workflow of `TextSummarizationTool.js`

`summarizeFile` uploads the document, then polls
`summarizationService.getSummary(docId)` in a bounded loop:
`while (!summaryReady && attempts < maxAttempts)`, each iteration first
awaiting a 2000 ms timer, then querying the status; a response with
`status === 'completed'` stores the summary and ends the loop, any other
response only updates the progress message, and a thrown error is caught
and logged.  `attempts++` runs in every iteration.  The environment is
modelled by the outcome of the upload request and by the response the
`n`-th status query would produce. -/

/-- Outcome of one `getSummary` status query: either the parsed response
(with its `status` and `summary` fields) or a rejected promise. -/
inductive PollStep
  | response (status : JStr) (summary : JStr)
  | throwErr
  deriving DecidableEq

/-- `const maxAttempts = 30; // 30 * 2 seconds = 60 seconds max wait time` -/
def maxAttempts : Nat := 30

/-- `setTimeout(resolve, 2000)` before every status query. -/
def pollDelayMs : Nat := 2000

/-- `summaryResponse.status === 'completed'`. -/
def isCompleted : PollStep → Bool
  | .response st _ => st = "completed".toList
  | .throwErr => false

/-- Observable outcome of the polling loop: how many status queries were
issued, total milliseconds spent in the inter-attempt delays, and the
summary stored by `setSummary` if some response completed. -/
structure PollOutcome where
  pollCalls : Nat
  waitedMs : Nat
  summary : Option JStr
  deriving DecidableEq

/-- The `while (!summaryReady && attempts < maxAttempts)` loop, recursing
on `remaining = maxAttempts - attempts` iterations still allowed.  Each
iteration waits `pollDelayMs`, issues one query, stops on a `completed`
response, and otherwise (other statuses as well as caught errors)
continues with `attempts + 1`. -/
def pollLoopAux (resp : Nat → PollStep) : Nat → Nat → PollOutcome
  | _, 0 => ⟨0, 0, none⟩
  | attempts, remaining + 1 =>
    match resp attempts with
    | .response st sm =>
      if st = ("completed".toList : JStr) then ⟨1, pollDelayMs, some sm⟩
      else
        let o := pollLoopAux resp (attempts + 1) remaining
        ⟨o.pollCalls + 1, o.waitedMs + pollDelayMs, o.summary⟩
    | .throwErr =>
      let o := pollLoopAux resp (attempts + 1) remaining
      ⟨o.pollCalls + 1, o.waitedMs + pollDelayMs, o.summary⟩

/-- The loop as entered by `summarizeFile`: `attempts = 0`, bound 30. -/
def runPollLoop (resp : Nat → PollStep) : PollOutcome :=
  pollLoopAux resp 0 maxAttempts

/-- Outcome of `summarizationService.uploadDocument`: the parsed
`document_id` or a rejected promise. -/
inductive UploadStep
  | ok (documentId : JStr)
  | throwErr
  deriving DecidableEq

/-- Observable outcome of one `summarizeFile` invocation.  `timedOut`
records the `'Summary generation is taking longer than expected...'`
error set when the loop exhausts its attempts without a completed
response; `uploadOrProcessError` the `'Error uploading or processing
document...'` error of the outer catch; `noFileError` the `'Please select
a file to upload'` early return. -/
structure FileRunOutcome where
  uploadCalls : Nat
  pollCalls : Nat
  waitedMs : Nat
  documentId : Option JStr
  summary : Option JStr
  timedOut : Bool
  uploadOrProcessError : Bool
  noFileError : Bool
  deriving DecidableEq

/-- `summarizeFile` from `TextSummarizationTool.js`: early return when no
file is selected; one upload request whose failure hits the outer catch
before any polling; otherwise `setDocumentId(docId)` followed by the
bounded polling loop, and the timeout error when `!summaryReady` at the
end. -/
def summarizeFileRun (file : Option Unit) (upload : UploadStep)
    (resp : Nat → PollStep) : FileRunOutcome :=
  match file with
  | none => ⟨0, 0, 0, none, none, false, false, true⟩
  | some _ =>
    match upload with
    | .throwErr => ⟨1, 0, 0, none, none, false, true, false⟩
    | .ok docId =>
      let o := runPollLoop resp
      ⟨1, o.pollCalls, o.waitedMs, some docId, o.summary, o.summary.isNone,
        false, false⟩

/-- `summarizeFile` in the presence of caller-side cancellation events
(`cancel n` = the caller has cancelled before attempt `n`, e.g. by
navigating away or starting a new submission).  The source loop consults
no cancellation signal whatsoever — its condition reads only
`summaryReady` and `attempts`, and its body only the poll response — so
the run is the same function of the environment regardless of `cancel`. -/
def summarizeFileRunCancel (cancel : Nat → Bool) (file : Option Unit)
    (upload : UploadStep) (resp : Nat → PollStep) : FileRunOutcome :=
  summarizeFileRun file upload resp

theorem pollLoopAux_all_pending (resp : Nat → PollStep) :
    ∀ (remaining attempts : Nat),
      (∀ n, attempts ≤ n → n < attempts + remaining → isCompleted (resp n) = false) →
      pollLoopAux resp attempts remaining = ⟨remaining, pollDelayMs * remaining, none⟩ := by
  intro remaining
  induction remaining with
  | zero => intro attempts _; simp [pollLoopAux]
  | succ r ih =>
    intro attempts h
    have h0 : isCompleted (resp attempts) = false :=
      h attempts le_rfl (by omega)
    have hrec : pollLoopAux resp (attempts + 1) r = ⟨r, pollDelayMs * r, none⟩ :=
      ih (attempts + 1) (fun n h1 h2 => h n (by omega) (by omega))
    cases hstep : resp attempts with
    | response st sm =>
      have hst : ¬ (st = ("completed".toList : JStr)) := by
        rw [hstep] at h0
        simpa [isCompleted] using h0
      simp only [pollLoopAux, hstep, if_neg hst, hrec, PollOutcome.mk.injEq]
      simp [Nat.mul_succ]
    | throwErr =>
      simp only [pollLoopAux, hstep, hrec, PollOutcome.mk.injEq]
      simp [Nat.mul_succ]


/-- Claim C2: in a run of the file-polling loop in which no status
response is completed (all failed or pending), exactly `maxAttempts = 30`
status queries are issued, each preceded by the fixed 2000 ms delay
(60000 ms in total), and the workflow terminates in the failed
timed-out state with no summary; `pollCalls = 30` exactly, so no further
polls are issued afterward. -/
theorem summarizeFile_timeout (d : JStr) (resp : Nat → PollStep)
    (h : ∀ n, n < 30 → isCompleted (resp n) = false) :
    summarizeFileRun (some ()) (.ok d) resp =
      ⟨1, 30, 60000, some d, none, true, false, false⟩ := by
  have hloop : runPollLoop resp = ⟨30, 60000, none⟩ := by
    rw [runPollLoop, maxAttempts,
      pollLoopAux_all_pending resp 30 0 (fun n _ h2 => h n (by omega))]
    decide
  simp [summarizeFileRun, hloop]

theorem summarizeFile_timeout_witness :
    (∀ n, n < 30 →
      isCompleted ((fun _ => PollStep.response "processing".toList []) n) = false)
    ∧ summarizeFileRun (some ()) (.ok "d".toList)
        (fun _ => PollStep.response "processing".toList []) =
      ⟨1, 30, 60000, some "d".toList, none, true, false, false⟩ :=
  ⟨by decide, summarizeFile_timeout "d".toList
    (fun _ => PollStep.response "processing".toList []) (by decide)⟩

/-- Classification of a poll response as the loop reacts to it: `some s`
for a completed response carrying summary `s`, `none` for every other
response and for a thrown (caught) error. -/
def stepClass : PollStep → Option JStr
  | .response st sm => if st = ("completed".toList : JStr) then some sm else none
  | .throwErr => none

/-- The polling loop as a function of the response classification only. -/
def pollLoopAuxC (cls : Nat → Option JStr) : Nat → Nat → PollOutcome
  | _, 0 => ⟨0, 0, none⟩
  | attempts, remaining + 1 =>
    match cls attempts with
    | some sm => ⟨1, pollDelayMs, some sm⟩
    | none =>
      let o := pollLoopAuxC cls (attempts + 1) remaining
      ⟨o.pollCalls + 1, o.waitedMs + pollDelayMs, o.summary⟩

theorem pollLoopAux_eq_class (resp : Nat → PollStep) :
    ∀ remaining attempts,
      pollLoopAux resp attempts remaining =
        pollLoopAuxC (fun n => stepClass (resp n)) attempts remaining := by
  intro remaining
  induction remaining with
  | zero => intro attempts; rfl
  | succ r ih =>
    intro attempts
    have hC : pollLoopAuxC (fun n => stepClass (resp n)) attempts (r + 1)
        = match stepClass (resp attempts) with
          | some sm => ⟨1, pollDelayMs, some sm⟩
          | none =>
            let o := pollLoopAuxC (fun n => stepClass (resp n)) (attempts + 1) r
            ⟨o.pollCalls + 1, o.waitedMs + pollDelayMs, o.summary⟩ := rfl
    rw [hC]
    cases hstep : resp attempts with
    | response st sm =>
      simp only [pollLoopAux, hstep]
      by_cases hst : st = ("completed".toList : JStr)
      · rw [if_pos hst]
        have hsc : stepClass (PollStep.response st sm) = some sm := by
          simp only [stepClass]
          rw [if_pos hst]
        rw [hsc]
      · rw [if_neg hst]
        have hsc : stepClass (PollStep.response st sm) = none := by
          simp only [stepClass]
          rw [if_neg hst]
        rw [hsc, ih (attempts + 1)]
    | throwErr =>
      simp only [pollLoopAux, hstep]
      have hsc : stepClass PollStep.throwErr = none := rfl
      rw [hsc, ih (attempts + 1)]

/-- Claim C3: a status query that raises a transient transport error is
swallowed and the loop continues, exactly as for a not-yet-completed
response — the run of the loop is unchanged when an error response is
exchanged for any non-completed response; and in particular, a transient
failure on the first poll followed by a completed response on the second
yields the summary after exactly 2 polls. -/
theorem poll_transient_swallowed (resp : Nat → PollStep) (k : Nat)
    (st sm : JStr) (h : st ≠ "completed".toList) :
    runPollLoop (Function.update resp k PollStep.throwErr) =
      runPollLoop (Function.update resp k (PollStep.response st sm))
    ∧ runPollLoop (fun n =>
        if n = 0 then PollStep.throwErr
        else PollStep.response "completed".toList "Done.".toList) =
      ⟨2, 4000, some "Done.".toList⟩ := by
  constructor
  · rw [runPollLoop, runPollLoop, pollLoopAux_eq_class, pollLoopAux_eq_class]
    have hcls : (fun n => stepClass (Function.update resp k PollStep.throwErr n))
        = fun n => stepClass (Function.update resp k (PollStep.response st sm) n) := by
      funext n
      by_cases hn : n = k
      · subst hn
        rw [Function.update_same, Function.update_same]
        show stepClass PollStep.throwErr = stepClass (PollStep.response st sm)
        simp only [stepClass]
        rw [if_neg h]
      · rw [Function.update_noteq hn, Function.update_noteq hn]
    rw [hcls]
  · decide

theorem poll_transient_swallowed_witness :
    ("processing".toList ≠ "completed".toList)
    ∧ (runPollLoop (Function.update
          (fun _ => PollStep.response "processing".toList []) 0 PollStep.throwErr) =
        runPollLoop (Function.update
          (fun _ => PollStep.response "processing".toList []) 0
          (PollStep.response "processing".toList []))
      ∧ runPollLoop (fun n =>
          if n = 0 then PollStep.throwErr
          else PollStep.response "completed".toList "Done.".toList) =
        ⟨2, 4000, some "Done.".toList⟩) :=
  ⟨by decide, poll_transient_swallowed
    (fun _ => PollStep.response "processing".toList []) 0
    "processing".toList [] (by decide)⟩

/-- Claim C7: when the initial multipart upload fails, `summarizeFile`
takes the outer catch — the upload-error message is set — and the polling
loop is never entered: zero status queries are issued, whatever the
status endpoint would have answered. -/
theorem summarizeFile_uploadFailure (resp : Nat → PollStep) :
    summarizeFileRun (some ()) UploadStep.throwErr resp =
      ⟨1, 0, 0, none, none, false, true, false⟩ := rfl

/-- Claim C8: with an upload succeeding with `document_id "d2"`, two
`Processing` responses and then a
`{status: "completed", summary: "Done."}` response, the workflow
succeeds with summary `"Done."` after exactly 3 poll calls. -/
theorem summarizeFile_threePolls :
    summarizeFileRun (some ()) (.ok "d2".toList)
      (fun n => if n < 2 then PollStep.response "Processing".toList []
                else PollStep.response "completed".toList "Done.".toList) =
      ⟨1, 3, 6000, some "d2".toList, some "Done.".toList, false, false, false⟩ := by
  decide

/-- Claim C6 (counterexample): the loop issues polls after the caller has
cancelled.  With the caller cancelling from attempt 1 onward and every
response pending, the loop still issues all 30 status polls instead of
stopping at the cancellation point. -/
theorem poll_cancellation_cex :
    (summarizeFileRunCancel (fun n => 1 ≤ n) (some ())
      (.ok "d".toList) (fun _ => PollStep.response "processing".toList [])).pollCalls
      = 30
    ∧ ¬ ((summarizeFileRunCancel (fun n => 1 ≤ n) (some ())
      (.ok "d".toList)
      (fun _ => PollStep.response "processing".toList [])).pollCalls ≤ 1) := by
  decide

theorem pollLoopAux_completes_or_exhausts (resp : Nat → PollStep) :
    ∀ remaining attempts,
      (pollLoopAux resp attempts remaining).summary.isSome = true
      ∨ (pollLoopAux resp attempts remaining).pollCalls = remaining := by
  intro remaining
  induction remaining with
  | zero => intro attempts; right; rfl
  | succ r ih =>
    intro attempts
    cases hstep : resp attempts with
    | response st sm =>
      by_cases hst : st = ("completed".toList : JStr)
      · left
        simp only [pollLoopAux, hstep]
        rw [if_pos hst]
        rfl
      · rcases ih (attempts + 1) with hsome | hcalls
        · left
          simp only [pollLoopAux, hstep]
          rw [if_neg hst]
          simpa using hsome
        · right
          simp only [pollLoopAux, hstep]
          rw [if_neg hst]
          simpa using hcalls
    | throwErr =>
      rcases ih (attempts + 1) with hsome | hcalls
      · left
        simp only [pollLoopAux, hstep]
        simpa using hsome
      · right
        simp only [pollLoopAux, hstep]
        simpa using hcalls

/-- Claim C6 (amended): the polling loop has no cancellation mechanism:
its run is the same for every cancellation signal (the loop never
consults one), and it keeps issuing polls until either some response
completes or all 30 attempts are spent.  A new submission while one is in
flight is prevented only by the `disabled={loading}` guard on the UI
buttons, not by the workflow itself. -/
theorem poll_cancellation_amended (cancel cancel' : Nat → Bool)
    (file : Option Unit) (upload : UploadStep) (resp : Nat → PollStep) :
    summarizeFileRunCancel cancel file upload resp
      = summarizeFileRunCancel cancel' file upload resp
    ∧ ((runPollLoop resp).summary.isSome = true
      ∨ (runPollLoop resp).pollCalls = 30) :=
  ⟨rfl, pollLoopAux_completes_or_exhausts resp maxAttempts 0⟩


/-! ### Direct text summarization: options handling and `summarizeText`

`handleOptionsChange` stores each slider's parsed integer into the options
object with no validation; `summarizeText` checks only `!text.trim()`
before calling `summarizationService.summarizeText`, which posts
`{text, max_length: options.maxLength || 150, min_length: options.minLength || 40}`. -/

/-- The `summaryOptions` state: `{ maxLength, minLength }`. -/
structure SummaryOptions where
  maxLength : Int
  minLength : Int
  deriving DecidableEq

/-- Initial state: `{ maxLength: 150, minLength: 40 }`. -/
def initialSummaryOptions : SummaryOptions := ⟨150, 40⟩

/-- The `name` attribute of the two range inputs. -/
inductive OptionField
  | maxLength
  | minLength
  deriving DecidableEq

/-- `handleOptionsChange`: `setSummaryOptions({ ...summaryOptions,
[name]: parseInt(value) })` — the parsed integer is stored as-is; no
check relates `minLength` to `maxLength`.  (The UI bounds each slider
separately: `maxLength` in [50, 500], `minLength` in [20, 200].) -/
def handleOptionsChange (opts : SummaryOptions) (name : OptionField)
    (value : Int) : SummaryOptions :=
  match name with
  | .maxLength => { opts with maxLength := value }
  | .minLength => { opts with minLength := value }

/-- A sequence of option-change events applied in order to the initial
options. -/
def applyOptionEvents (evs : List (OptionField × Int)) : SummaryOptions :=
  evs.foldl (fun o e => handleOptionsChange o e.1 e.2) initialSummaryOptions

/-- JavaScript `x || d` for a number `x` known to be an integer: `0` is
the falsy case.  (The sliders always parse to an integer, so `NaN` does
not arise on this path.) -/
def jsOrInt (x d : Int) : Int := if x = 0 then d else x

/-- Body of the `POST /summarize` request built by
`summarizationService.summarizeText`. -/
structure SummarizeRequest where
  text : JStr
  max_length : Int
  min_length : Int
  deriving DecidableEq

/-- `apiClient.post('/summarize', { text, max_length: options.maxLength
|| 150, min_length: options.minLength || 40 })`. -/
def serviceSummarizeRequest (text : JStr) (opts : SummaryOptions) :
    SummarizeRequest :=
  ⟨text, jsOrInt opts.maxLength 150, jsOrInt opts.minLength 40⟩

/-- Outcome of the `/summarize` request: the parsed
`{summary, document_id}` response, or a rejected promise. -/
inductive TextServiceStep
  | ok (summary documentId : JStr)
  | throwErr
  deriving DecidableEq

/-- Observable outcome of one `summarizeText` invocation:
the request issued (if any), the stored summary and document id, and
which error message was set — `emptyTextError` for `'Please enter some
text to summarize'`, `requestError` for the catch-all `'An error occurred
during summarization...'`. -/
structure TextFlowOutcome where
  request : Option SummarizeRequest
  summary : Option JStr
  documentId : Option JStr
  emptyTextError : Bool
  requestError : Bool
  deriving DecidableEq

/-- `summarizeText` from `TextSummarizationTool.js`: `if (!text.trim())`
sets the validation error and returns before any service call; otherwise
exactly one `/summarize` request is issued and the response (or failure)
is stored. -/
def summarizeTextRun (text : JStr) (opts : SummaryOptions)
    (svc : TextServiceStep) : TextFlowOutcome :=
  if jsTrim text = [] then ⟨none, none, none, true, false⟩
  else
    match svc with
    | .ok sm docId =>
      ⟨some (serviceSummarizeRequest text opts), some sm, some docId,
        false, false⟩
    | .throwErr =>
      ⟨some (serviceSummarizeRequest text opts), none, none, false, true⟩

/-- Claim C5: for every input text that is empty or whitespace-only after
trimming, `summarizeText` fails with the validation error (`'Please
enter some text to summarize'`) and issues no network call. -/
theorem summarizeText_emptyInput (text : JStr) (opts : SummaryOptions)
    (svc : TextServiceStep) (h : jsTrim text = []) :
    summarizeTextRun text opts svc = ⟨none, none, none, true, false⟩ := by
  simp [summarizeTextRun, h]

theorem summarizeText_emptyInput_witness :
    jsTrim "   ".toList = []
    ∧ summarizeTextRun "   ".toList initialSummaryOptions
        TextServiceStep.throwErr = ⟨none, none, none, true, false⟩ :=
  ⟨by decide, summarizeText_emptyInput "   ".toList initialSummaryOptions
    TextServiceStep.throwErr (by decide)⟩

/-- Claim C1 (counterexample): no `minLength ≤ maxLength` validation
exists.  Starting from the initial options, the two slider events
`minLength := 200` and `maxLength := 50` (each inside its own slider's
range) yield an inverted pair, and `summarizeText` still issues the
network request, carrying `max_length = 50 < min_length = 200` — the
options value is accepted for submission with `minLength > maxLength`. -/
theorem options_inverted_submitted_cex :
    (summarizeTextRun "Hello world".toList
        (applyOptionEvents
          [(OptionField.minLength, 200), (OptionField.maxLength, 50)])
        (TextServiceStep.ok "Hi.".toList "d1".toList)).request
      = some ⟨"Hello world".toList, 50, 200⟩
    ∧ (50 : Int) < 200 := by
  decide

/-- Claim C1 (amended): neither `handleOptionsChange` nor the submission
path validates the length options.  After any sequence of option-change
events, a text that is non-empty after trimming is submitted with exactly
one request carrying `max_length = maxLength || 150` and `min_length =
minLength || 40` taken from the stored options with no ordering or range
check, so inverted or out-of-range values are submitted rather than
rejected. -/
theorem summarizeText_no_length_validation (text : JStr)
    (evs : List (OptionField × Int)) (svc : TextServiceStep)
    (h : jsTrim text ≠ []) :
    (summarizeTextRun text (applyOptionEvents evs) svc).request
      = some (serviceSummarizeRequest text (applyOptionEvents evs))
    ∧ (summarizeTextRun text (applyOptionEvents evs) svc).emptyTextError
      = false := by
  cases svc <;> simp [summarizeTextRun, h]

theorem summarizeText_no_length_validation_witness :
    jsTrim "Hello world".toList ≠ []
    ∧ ((summarizeTextRun "Hello world".toList
        (applyOptionEvents
          [(OptionField.minLength, 200), (OptionField.maxLength, 50)])
        TextServiceStep.throwErr).request
      = some (serviceSummarizeRequest "Hello world".toList
          (applyOptionEvents
            [(OptionField.minLength, 200), (OptionField.maxLength, 50)]))
      ∧ (summarizeTextRun "Hello world".toList
          (applyOptionEvents
            [(OptionField.minLength, 200), (OptionField.maxLength, 50)])
          TextServiceStep.throwErr).emptyTextError = false) :=
  ⟨by decide, summarizeText_no_length_validation "Hello world".toList
    [(OptionField.minLength, 200), (OptionField.maxLength, 50)]
    TextServiceStep.throwErr (by decide)⟩


/-! ### Client-side file validation

Two validators exist in the repository: `validateFiles` inside the
`FileUpload` component (size check first, with an early `return` that
skips the type check for that file) and the standalone `validateFile`
utility (which accumulates every violated constraint).  Error message
strings are abstracted to the constraint they report. -/

/-- A selected `File`: name, byte size, and MIME type string. -/
structure JSFile where
  name : JStr
  size : Nat
  type : JStr
  deriving DecidableEq

/-- JavaScript `s.startsWith(p)` (here: `file.type.startsWith(mimePrefix)`). -/
def jsStartsWith : JStr → JStr → Bool
  | [], _ => true
  | _ :: _, [] => false
  | c :: p, d :: s => c = d && jsStartsWith p s

/-- `'.' + file.name.split('.').pop().toLowerCase()` — the extension as
computed by both validators. -/
def fileExtension (name : JStr) : JStr :=
  '.' :: jsToLower ((jsSplitChar '.' name).getLastD [])

/-- `accept.split(',')`. -/
def acceptedTypesOf (accept : JStr) : List JStr := jsSplitChar ',' accept

/-- The `accept` prop passed by `TextSummarizationTool`:
`".txt,.pdf,.docx,.doc"`. -/
def defaultAccept : JStr := ".txt,.pdf,.docx,.doc".toList

/-- The `maxSize` prop (in MB) passed by `TextSummarizationTool`. -/
def defaultMaxSizeMB : Nat := 10

/-- The `acceptedTypes.some(...)` test of `validateFiles`: an entry
containing `'*'` checks `file.type.startsWith(type.split('*')[0])`; any
other entry must equal the file's extension or its MIME type. -/
def typeAccepted (acceptedTypes : List JStr) (f : JSFile) : Bool :=
  acceptedTypes.any fun t =>
    if t.contains '*' then
      jsStartsWith (t.takeWhile fun c => c != '*') f.type
    else t = fileExtension f.name || t = f.type

/-- The messages `validateFiles` pushes into `invalidFiles`, abstracted to
the constraint each reports: `(exceeds NMB size limit)` or
`(invalid file type)`. -/
inductive UploadConstraint
  | sizeLimit
  | fileType
  deriving DecidableEq

/-- The two accumulators of `validateFiles`. -/
structure ValidateFilesResult where
  validFiles : List JSFile
  invalidFiles : List (JStr × UploadConstraint)
  deriving DecidableEq

/-- The `files.forEach` body of `validateFiles` in `FileUpload.jsx`: an
oversized file gets the size message and an early `return` — the type
check is skipped for that file — and only otherwise is the type check
performed. -/
def validateFilesRun (maxSizeMB : Nat) (acceptedTypes : List JStr) :
    List JSFile → ValidateFilesResult
  | [] => ⟨[], []⟩
  | f :: fs =>
    let r := validateFilesRun maxSizeMB acceptedTypes fs
    if f.size > maxSizeMB * 1024 * 1024 then
      ⟨r.validFiles, (f.name, UploadConstraint.sizeLimit) :: r.invalidFiles⟩
    else if !(typeAccepted acceptedTypes f) then
      ⟨r.validFiles, (f.name, UploadConstraint.fileType) :: r.invalidFiles⟩
    else ⟨f :: r.validFiles, r.invalidFiles⟩

/-- `validateFiles`: `none` models `return false` (the component joins
`invalidFiles` into the error message); otherwise the valid files. -/
def validateFiles (maxSizeMB : Nat) (acceptedTypes : List JStr)
    (files : List JSFile) : Option (List JSFile) :=
  let r := validateFilesRun maxSizeMB acceptedTypes files
  if r.invalidFiles.isEmpty then some r.validFiles else none

/-- `handleChange`/`handleDrop` in the single-file configuration used by
`TextSummarizationTool`: the first selected file is validated; when
validation fails (`validFiles` is `false`) `onFileSelect` is not called,
so the rejected file never becomes the component's `file` state and
`summarizeFile` can never upload it. -/
def handleChangeSelect (files : List JSFile) : Option JSFile :=
  match files with
  | [] => none
  | f :: _ =>
    match validateFiles defaultMaxSizeMB (acceptedTypesOf defaultAccept) [f] with
    | none => none
    | some vs => vs.head?

/-- The entries of the `errors` array of the standalone `validateFile`
utility, abstracted to the constraint each message reports. -/
inductive FileValidationIssue
  | noFileSelected
  | sizeLimit
  | fileType
  deriving DecidableEq

/-- Return value of `validateFile`: `{ isValid, errors }`. -/
structure FileValidationResult where
  isValid : Bool
  errors : List FileValidationIssue
  deriving DecidableEq

/-- `FILE_TYPES.ALLOWED_EXTENSIONS` from the constants module. -/
def allowedExtensions : List JStr :=
  [".txt".toList, ".pdf".toList, ".docx".toList, ".doc".toList]

/-- `FILE_TYPES.MAX_SIZE = 10 * 1024 * 1024`. -/
def fileTypesMaxSize : Nat := 10 * 1024 * 1024

/-- `validateFile` from the standalone upload utility: pushes an error
for EVERY violated constraint — the size check does not short-circuit the
extension check — and is valid iff `errors` is empty. -/
def validateFile : Option JSFile → FileValidationResult
  | none => ⟨false, [FileValidationIssue.noFileSelected]⟩
  | some f =>
    let sizeErrs :=
      if f.size > fileTypesMaxSize then [FileValidationIssue.sizeLimit] else []
    let typeErrs :=
      if !(allowedExtensions.contains (fileExtension f.name)) then
        [FileValidationIssue.fileType]
      else []
    let errs := sizeErrs ++ typeErrs
    ⟨errs.isEmpty, errs⟩

theorem validateFilesRun_singleton (m : Nat) (a : List JStr) (f : JSFile) :
    validateFilesRun m a [f] =
      if f.size > m * 1024 * 1024 then
        ⟨[], [(f.name, UploadConstraint.sizeLimit)]⟩
      else if !(typeAccepted a f) then
        ⟨[], [(f.name, UploadConstraint.fileType)]⟩
      else ⟨[f], []⟩ := rfl

/-- Claim C4 (counterexample): a file violating BOTH constraints — 11 MB
(> 10 MB) with disallowed extension `.exe` — is reported by
`validateFiles` with the size message only: the early `return` after the
size check skips the type check, so the error does not list every
violated constraint. -/
theorem validateFiles_first_violation_only_cex :
    typeAccepted (acceptedTypesOf defaultAccept)
      ⟨"big.exe".toList, 11534336, "application/x-msdownload".toList⟩ = false
    ∧ (validateFilesRun defaultMaxSizeMB (acceptedTypesOf defaultAccept)
        [⟨"big.exe".toList, 11534336, "application/x-msdownload".toList⟩]).invalidFiles
      = [("big.exe".toList, UploadConstraint.sizeLimit)] := by
  decide

/-- Claim C4 (amended): a file exceeding 10 MB or failing the type check
is rejected with a non-empty violation list and triggers no network
call — `validateFiles` returns `false`, `onFileSelect` is never invoked,
and without a selected file `summarizeFile` issues neither an upload nor
a poll.  However, `validateFiles` lists only the first violated
constraint per file (the size violation alone when the file is
oversized), while the standalone `validateFile` utility lists every
violated constraint. -/
theorem submitFile_invalid_rejected (f : JSFile) (up : UploadStep)
    (resp : Nat → PollStep) :
    ((f.size > defaultMaxSizeMB * 1024 * 1024
        ∨ typeAccepted (acceptedTypesOf defaultAccept) f = false) →
      validateFiles defaultMaxSizeMB (acceptedTypesOf defaultAccept) [f] = none
      ∧ (validateFilesRun defaultMaxSizeMB
          (acceptedTypesOf defaultAccept) [f]).invalidFiles ≠ []
      ∧ handleChangeSelect [f] = none)
    ∧ (f.size > defaultMaxSizeMB * 1024 * 1024 →
      (validateFilesRun defaultMaxSizeMB
          (acceptedTypesOf defaultAccept) [f]).invalidFiles
        = [(f.name, UploadConstraint.sizeLimit)])
    ∧ (f.size > fileTypesMaxSize
        ∧ allowedExtensions.contains (fileExtension f.name) = false →
      (validateFile (some f)).isValid = false
      ∧ FileValidationIssue.sizeLimit ∈ (validateFile (some f)).errors
      ∧ FileValidationIssue.fileType ∈ (validateFile (some f)).errors)
    ∧ (summarizeFileRun none up resp).uploadCalls = 0
    ∧ (summarizeFileRun none up resp).pollCalls = 0 := by
  refine ⟨?_, ?_, ?_, rfl, rfl⟩
  · intro hviol
    have hrun : (validateFilesRun defaultMaxSizeMB
        (acceptedTypesOf defaultAccept) [f]).invalidFiles ≠ [] := by
      rw [validateFilesRun_singleton]
      by_cases hs : f.size > defaultMaxSizeMB * 1024 * 1024
      · simp [hs]
      · rcases hviol with hs' | ht
        · exact absurd hs' hs
        · simp [hs, ht]
    refine ⟨?_, hrun, ?_⟩
    · rw [validateFiles]
      simp only [List.isEmpty_iff]
      rw [if_neg hrun]
    · rw [handleChangeSelect]
      have hv : validateFiles defaultMaxSizeMB
          (acceptedTypesOf defaultAccept) [f] = none := by
        rw [validateFiles]
        simp only [List.isEmpty_iff]
        rw [if_neg hrun]
      rw [hv]
  · intro hs
    rw [validateFilesRun_singleton, if_pos hs]
  · intro hst
    have hmem : fileExtension f.name ∉ allowedExtensions := by
      simpa using hst.2
    rw [validateFile]
    simp [hst.1, hmem]

theorem submitFile_invalid_rejected_witness :
    ((⟨"big.exe".toList, 11534336,
        "application/x-msdownload".toList⟩ : JSFile).size
      > defaultMaxSizeMB * 1024 * 1024)
    ∧ handleChangeSelect
        [⟨"big.exe".toList, 11534336, "application/x-msdownload".toList⟩] = none
    ∧ FileValidationIssue.fileType ∈
        (validateFile (some ⟨"big.exe".toList, 11534336,
          "application/x-msdownload".toList⟩)).errors := by
  refine ⟨by decide, ?_, ?_⟩
  · exact ((submitFile_invalid_rejected
      ⟨"big.exe".toList, 11534336, "application/x-msdownload".toList⟩
      UploadStep.throwErr (fun _ => PollStep.throwErr)).1
      (Or.inl (by decide))).2.2
  · exact ((submitFile_invalid_rejected
      ⟨"big.exe".toList, 11534336, "application/x-msdownload".toList⟩
      UploadStep.throwErr (fun _ => PollStep.throwErr)).2.2.1
      ⟨by decide, by decide⟩).2.2


/-! ### Feedback submission (`submitFeedback`) -/

/-- Payload of `POST /feedback` built by `submitFeedback`
(`summary_id` reuses `document_id`, per the source comment). -/
structure FeedbackPayload where
  document_id : JStr
  summary_id : JStr
  rating : Nat
  feedback_text : JStr
  original_summary : JStr
  deriving DecidableEq

/-- The error message state as far as `submitFeedback` writes it. -/
inductive FbError
  | ratingRequired
  | submitFailed
  deriving DecidableEq

/-- The component state read and written by `submitFeedback`:
the star `rating`, the `feedback` comment, the current `documentId` and
`summary`, the error message, whether `processingStatus` shows the
success message, and the loading flag. -/
structure FeedbackState where
  rating : Nat
  feedback : JStr
  documentId : JStr
  summary : JStr
  error : Option FbError
  successStatus : Bool
  loading : Bool
  deriving DecidableEq

/-- Outcome of the `/feedback` request. -/
inductive FeedbackServiceStep
  | ok
  | throwErr
  deriving DecidableEq

/-- `submitFeedback` from `TextSummarizationTool.js`: `rating === 0`
returns early with the rating-required error and no request; otherwise
one request with `summary_id = document_id` is sent.  On success the
feedback form is reset (`setFeedback('')`, `setRating(0)`), the error
cleared and the success status shown; on failure only the error message
and the loading flag change — `rating` and `feedback` are left untouched.
(The `setTimeout` clearing the success status after 3 s is not part of
this handler's synchronous effect and is abstracted away.) -/
def submitFeedbackRun (s : FeedbackState) (svc : FeedbackServiceStep) :
    FeedbackState × Option FeedbackPayload :=
  if s.rating = 0 then ({ s with error := some FbError.ratingRequired }, none)
  else
    let payload : FeedbackPayload :=
      ⟨s.documentId, s.documentId, s.rating, s.feedback, s.summary⟩
    match svc with
    | .ok =>
      ({ s with
           error := none,
           successStatus := true,
           feedback := [],
           rating := 0,
           loading := false }, some payload)
    | .throwErr =>
      ({ s with
           error := some FbError.submitFailed,
           successStatus := false,
           loading := false }, some payload)

/-- Claim C9: when `submitFeedback` actually submits (nonzero rating), a
successful request resets the feedback-related state — `rating` to its
default 0 and the comment to the empty string — while a failed request
leaves `rating` and `feedback` unchanged (only the error and loading
flags differ), so the same inputs can be resubmitted. -/
theorem submitFeedback_reset_and_frame (s : FeedbackState)
    (h : s.rating ≠ 0) :
    ((submitFeedbackRun s FeedbackServiceStep.ok).1.rating = 0
      ∧ (submitFeedbackRun s FeedbackServiceStep.ok).1.feedback = []
      ∧ (submitFeedbackRun s FeedbackServiceStep.ok).2
        = some ⟨s.documentId, s.documentId, s.rating, s.feedback, s.summary⟩)
    ∧ ((submitFeedbackRun s FeedbackServiceStep.throwErr).1.rating = s.rating
      ∧ (submitFeedbackRun s FeedbackServiceStep.throwErr).1.feedback
        = s.feedback
      ∧ (submitFeedbackRun s FeedbackServiceStep.throwErr).2
        = some ⟨s.documentId, s.documentId, s.rating, s.feedback, s.summary⟩) := by
  simp [submitFeedbackRun, h]

theorem submitFeedback_reset_and_frame_witness :
    (FeedbackState.rating ⟨4, "nice".toList, "d1".toList, "Hi.".toList,
        none, false, true⟩ ≠ 0)
    ∧ (submitFeedbackRun ⟨4, "nice".toList, "d1".toList, "Hi.".toList,
        none, false, true⟩ FeedbackServiceStep.ok).1.rating = 0
    ∧ (submitFeedbackRun ⟨4, "nice".toList, "d1".toList, "Hi.".toList,
        none, false, true⟩ FeedbackServiceStep.throwErr).1.feedback
      = "nice".toList :=
  ⟨by decide,
    (submitFeedback_reset_and_frame ⟨4, "nice".toList, "d1".toList,
      "Hi.".toList, none, false, true⟩ (by decide)).1.1,
    (submitFeedback_reset_and_frame ⟨4, "nice".toList, "d1".toList,
      "Hi.".toList, none, false, true⟩ (by decide)).2.2.1⟩

end GenAIText
